import Mathlib

/-!
Shallow embedding of the diff hunk transformation and pairing engine of the
tracer terminal diff-review tool (src/diff.tsx and the CLI entry file), and
proofs about the claims of its specification.

Conventions of the embedding:
* JavaScript numbers that hold line numbers / indices are modelled as `Int`
  (they can go negative, e.g. `segmentOldStart = -1` or `hunkIndex - 1`);
  array lengths are `Nat` and are cast where the code mixes them.
* The similarity score, a JS float that is an exact ratio of small integers,
  is modelled as `Rat`.
* React render nodes are abstracted to a `Content` value that records the
  text that is rendered and whether a word-level diff was computed for it
  (syntax-highlighting token decoration is presentation only and not part of
  the engine).
* The JS snippet id string `snippet-k` is modelled by the counter value `k`.
-/

/-- One hunk of a structured patch (`StructuredPatchHunk` of the diff
library): declared old/new start positions and line counts plus the raw
marker-prefixed lines. -/
structure Hunk where
  oldStart : Int
  oldLines : Int
  newStart : Int
  newLines : Int
  lines : List String
deriving DecidableEq, Repr

/-- A parsed file of the diff: optional old/new file names and its hunks. -/
structure ParsedFile where
  oldFileName : Option String
  newFileName : Option String
  hunks : List Hunk
deriving DecidableEq, Repr

/-- One classified segment of the AI analysis (`HunkAnalysis` in
intelligent.tsx). -/
structure HunkAnalysis where
  file : String
  lineStart : Int
  lineEnd : Int
  description : String
  classification : String
  risk : String
deriving DecidableEq, Repr

/-- The AI analysis result; `timestamp`/`version` are cache metadata unused
by the engine. -/
structure AnalysisResult where
  hunks : List HunkAnalysis
  timestamp : Int
  version : Option String
deriving DecidableEq, Repr

/-- The three line kinds produced by `formatDiff`'s marker classification. -/
inductive LineType
  | add
  | remove
  | nochange
deriving DecidableEq, Repr

/-- A line after marker classification: `{ code: code.slice(1), type, originalCode: code }`. -/
structure ProcessedLine where
  code : String
  type : LineType
  originalCode : String
deriving DecidableEq, Repr

/-- The per-line classification at the top of `formatDiff` (diff.tsx:412-424):
a leading `+` is an add, a leading `-` a remove, anything else (including an
unrecognized marker or an empty line) is `nochange`; the first character is
always stripped.  `code.startsWith "+"` for the one-character literal is
rendered as a test on the first character. -/
def processLine (code : String) : ProcessedLine :=
  if code.data.head? = some '+' then ⟨code.drop 1, .add, code⟩
  else if code.data.head? = some '-' then ⟨code.drop 1, .remove, code⟩
  else ⟨code.drop 1, .nochange, code⟩

/-- Row `i + 1` of the `levenshteinDistance` DP matrix (diff.tsx:360-369),
as a function of the column, given row `i` as `prev`:
`matrix[i+1][0] = i+1` and
`matrix[i+1][j+1] = min(matrix[i][j+1]+1, matrix[i+1][j]+1, matrix[i][j]+cost)`
with `cost = (str1[i] === str2[j] ? 0 : 1)`. -/
def levRow (s1 s2 : List Char) (prev : Nat → Nat) (i : Nat) : Nat → Nat
  | 0 => i + 1
  | j + 1 =>
    let cost : Nat := if s1.get? i = s2.get? j then 0 else 1
    min (min (prev (j + 1) + 1) (levRow s1 s2 prev i j + 1)) (prev j + cost)

/-- The DP matrix of `levenshteinDistance` (diff.tsx:347-372), built row by
row as the source's loops do: `levMatrix s1 s2 i j` is `matrix[i][j]`, with
`matrix[0][j] = j` (diff.tsx:356-358). -/
def levMatrix (s1 s2 : List Char) : Nat → Nat → Nat
  | 0 => fun j => j
  | i + 1 => levRow s1 s2 (levMatrix s1 s2 i) i

/-- `levenshteinDistance(str1, str2)` returns `matrix[len1][len2]`. -/
def levenshteinDistance (str1 str2 : String) : Nat :=
  levMatrix str1.data str2.data str1.data.length str2.data.length

/-- `calculateSimilarity` (diff.tsx:337-345), exact rational arithmetic in
place of JS floats. -/
def calculateSimilarity (str1 str2 : String) : Rat :=
  let longer := if str1.length > str2.length then str1 else str2
  let shorter := if str1.length > str2.length then str2 else str1
  if longer.length = 0 then 1
  else ((longer.length : Rat) - (levenshteinDistance longer shorter : Rat)) / (longer.length : Rat)

/-- Length of the maximal leading run of lines of type `t` (the inner
`while` loops collecting consecutive removes / adds, diff.tsx:482-498). -/
def runLength (t : LineType) : List ProcessedLine → Nat
  | [] => 0
  | l :: ls => if l.type = t then runLength t ls + 1 else 0

/-- The pairing scan of diff.tsx:476-510: starting at absolute index `i`,
on a remove line collect the maximal remove run, then the maximal add run
immediately after it, pair them positionally up to the shorter run length,
and continue after the combined run; on any other line advance by one.
The `fuel` argument only bounds the number of loop iterations so that the
recursion is structural; every iteration consumes at least one line, so
`fuel = ls.length` (see `linePairsFrom`) never runs out early. -/
def linePairsFromFuel : Nat → List ProcessedLine → Nat → List (Nat × Nat)
  | 0, _, _ => []
  | _ + 1, [], _ => []
  | fuel + 1, l :: ls, i =>
    if l.type = .remove then
      let r := runLength .remove (l :: ls)
      let a := runLength .add ((l :: ls).drop r)
      let m := min r a
      ((List.range m).map fun k => (i + k, i + r + k)) ++
        linePairsFromFuel fuel ((l :: ls).drop (r + a)) (i + r + a)
    else
      linePairsFromFuel fuel ls (i + 1)

/-- The pairing scan started on the whole line list. -/
def linePairsFrom (ls : List ProcessedLine) (i : Nat) : List (Nat × Nat) :=
  linePairsFromFuel ls.length ls i

/-- `hasRemovals` (diff.tsx:469). -/
def hasRemovals (pls : List ProcessedLine) : Bool :=
  pls.any fun l => decide (l.type = .remove)

/-- `hasAdditions` (diff.tsx:470). -/
def hasAdditions (pls : List ProcessedLine) : Bool :=
  pls.any fun l => decide (l.type = .add)

/-- `shouldShowWordDiff` (diff.tsx:471). -/
def shouldShowWordDiff (pls : List ProcessedLine) : Bool :=
  hasRemovals pls && hasAdditions pls

/-- `linePairs` (diff.tsx:474-511): empty unless the hunk has both a remove
and an add line somewhere. -/
def linePairsOf (pls : List ProcessedLine) : List (Nat × Nat) :=
  if shouldShowWordDiff pls then linePairsFrom pls 0 else []

/-- The rendered content of a row: either a whole line of text (possibly
syntax highlighted, which the embedding does not distinguish) or a
word-level diff of a paired remove/add line, recording the two texts the
`diffWords` call received. -/
inductive Content
  | plain (text : String)
  | wordDiffRemoved (removedText addedText : String)
  | wordDiffAdded (removedText addedText : String)
deriving DecidableEq, Repr

/-- One entry of `formatDiff`'s `result` array (diff.tsx:515-522). -/
structure Row where
  content : Content
  type : LineType
  oldLineNumber : Int
  newLineNumber : Int
  pairedWith : Option Nat
  snippetId : Option Nat
deriving DecidableEq, Repr

/-- `getSnippetId` (diff.tsx:525-535) together with its effect on the
mutable `snippetCounter`/`activeSnippetId`: returns the id handed to the
current line and the updated counter and active id. -/
def applySnippet (t : LineType) (counter : Nat) (active : Option Nat) :
    Option Nat × Nat × Option Nat :=
  match t with
  | .add | .remove =>
    match active with
    | some id => (some id, counter, some id)
    | none => (some (counter + 1), counter + 1, some (counter + 1))
  | .nochange => (none, counter, none)

/-- The shared counter-advance block at the end of the loop body
(diff.tsx:690-697). -/
def typeIncrement (t : LineType) (oldN newN : Int) : Int × Int :=
  match t with
  | .remove => (oldN + 1, newN)
  | .add => (oldN, newN + 1)
  | .nochange => (oldN + 1, newN + 1)

/-- `const shouldSkipWordDiff = similarity < 0.5` (diff.tsx:556, 616). -/
def shouldSkipWordDiff (removedText addedText : String) : Prop :=
  calculateSimilarity removedText addedText < (1 / 2 : Rat)

instance (removedText addedText : String) :
    Decidable (shouldSkipWordDiff removedText addedText) :=
  inferInstanceAs (Decidable (_ < _))

/-- The content rendered for the remove side of a pair
(diff.tsx:556-604): a whole line when the similarity is below `0.5`,
otherwise the word-level diff. -/
def pairedRemoveContent (removedText addedText : String) : Content :=
  if shouldSkipWordDiff removedText addedText then
    Content.plain removedText
  else
    Content.wordDiffRemoved removedText addedText

/-- The content rendered for the add side of a pair (diff.tsx:616-664). -/
def pairedAddContent (removedText addedText : String) : Content :=
  if shouldSkipWordDiff removedText addedText then
    Content.plain addedText
  else
    Content.wordDiffAdded removedText addedText

/-- The body of one iteration of `formatDiff`'s main loop
(diff.tsx:537-698) for line `pl` at absolute index `i`, after the snippet
id `sid` has been assigned: returns the row pushed for this line (if any)
and the updated counters.  The branch on the found pair follows the source:
a paired remove whose text is empty, or whose partner is missing, is
skipped entirely (`continue` before any counter change); a skipped-word-diff
branch advances only its own counter (`continue` before the shared block),
while a word-diff branch advances inside the branch and again in the shared
type-based block. -/
def lineStep (pls : List ProcessedLine) (pairs : List (Nat × Nat))
    (pl : ProcessedLine) (i : Nat) (oldN newN : Int) (sid : Option Nat) :
    Option Row × Int × Int :=
  match pairs.find? fun p => p.1 == i || p.2 == i with
  | some p =>
    if p.1 = i then
      if pl.code = "" then (none, oldN, newN)
      else
        match pls.get? p.2 with
        | none => (none, oldN, newN)
        | some addedLine =>
          let row : Row :=
            ⟨pairedRemoveContent pl.code addedLine.code, pl.type, oldN, newN, some p.2, sid⟩
          if shouldSkipWordDiff pl.code addedLine.code then
            (some row, oldN + 1, newN)
          else
            (some row, typeIncrement pl.type (oldN + 1) newN)
    else if p.2 = i then
      match pls.get? p.1 with
      | none => (none, oldN, newN)
      | some removedLine =>
        let row : Row :=
          ⟨pairedAddContent removedLine.code pl.code, pl.type, oldN, newN, some p.1, sid⟩
        if shouldSkipWordDiff removedLine.code pl.code then
          (some row, oldN, newN + 1)
        else
          (some row, typeIncrement pl.type oldN (newN + 1))
    else
      (some ⟨Content.plain pl.code, pl.type, oldN, newN, none, sid⟩,
        typeIncrement pl.type oldN newN)
  | none =>
    (some ⟨Content.plain pl.code, pl.type, oldN, newN, none, sid⟩,
      typeIncrement pl.type oldN newN)

/-- `formatDiff`'s main loop (diff.tsx:537-698), walking the remaining
lines `rest` (a suffix of `pls` starting at absolute index `i`) while
threading the two line-number counters and the snippet state. -/
def formatLoop (pls : List ProcessedLine) (pairs : List (Nat × Nat)) :
    List ProcessedLine → Nat → Int → Int → Nat → Option Nat → List Row
  | [], _, _, _, _, _ => []
  | pl :: rest, i, oldN, newN, counter, active =>
    let s := applySnippet pl.type counter active
    let step := lineStep pls pairs pl i oldN newN s.1
    match step.1 with
    | some row => row :: formatLoop pls pairs rest (i + 1) step.2.1 step.2.2 s.2.1 s.2.2
    | none => formatLoop pls pairs rest (i + 1) step.2.1 step.2.2 s.2.1 s.2.2

/-- The `result` array built by `formatDiff(lines, startingLineNumber, _)`
before its final stringifying map (diff.tsx:407-698).  Note that BOTH
counters are seeded from the single `startingLineNumber` argument
(diff.tsx:513-514). -/
def formatDiffRows (lines : List String) (startingLineNumber : Int) : List Row :=
  let pls := lines.map processLine
  formatLoop pls (linePairsOf pls) pls 0 startingLineNumber startingLineNumber 0 none

/-- The rows `StructuredDiff` computes for a hunk:
`formatDiff(patch.lines, patch.oldStart, splitView)` (diff.tsx:718) — the
call site passes `patch.oldStart` as the only seed. -/
def structuredDiffRows (patch : Hunk) : List Row :=
  formatDiffRows patch.lines patch.oldStart

/-- A row after `formatDiff`'s final map (diff.tsx:700-715), which converts
both line numbers to strings (the per-index `key` field is omitted). -/
structure DisplayRow where
  oldLineNumber : String
  newLineNumber : String
  content : Content
  type : LineType
  pairedWith : Option Nat
  snippetId : Option Nat
deriving DecidableEq, Repr

def toDisplayRow (r : Row) : DisplayRow :=
  ⟨toString r.oldLineNumber, toString r.newLineNumber, r.content, r.type, r.pairedWith, r.snippetId⟩

/-- The value returned by `formatDiff` (diff.tsx:700-716). -/
def formatDiff (lines : List String) (startingLineNumber : Int) (_isSplitView : Bool) :
    List DisplayRow :=
  (formatDiffRows lines startingLineNumber).map toDisplayRow

/-- JS `String.prototype.padStart(w)`: left-pad with spaces to width `w`. -/
def padStartStr (s : String) (w : Nat) : String :=
  String.mk (List.replicate (w - s.length) ' ') ++ s

/-- `" ".repeat(w)`. -/
def spacesStr (w : Nat) : String :=
  String.mk (List.replicate w ' ')

/-- One entry of `paddedDiff` in unified (non-split) mode (diff.tsx:723-729). -/
structure UnifiedRow where
  lineNumber : String
  item : DisplayRow
deriving DecidableEq, Repr

/-- The unified-mode row list of `StructuredDiff` (diff.tsx:722-729): each
row gains a single `lineNumber` column that shows the (stringified)
`newLineNumber` unless that string is empty or `"0"`, in which case it is
blank — for every row type, removals included. -/
def unifiedRows (patch : Hunk) (maxWidth : Nat) : List UnifiedRow :=
  (formatDiff patch.lines patch.oldStart false).map fun item =>
    ⟨if item.newLineNumber ≠ "" ∧ item.newLineNumber ≠ "0" then
        padStartStr item.newLineNumber maxWidth
      else spacesStr maxWidth, item⟩

/-- `getFileName` (CLI entry, lines 110-117): the new name wins when it is
truthy (non-empty) and not the `/dev/null` sentinel, else the old name under
the same test, else no name. -/
def getFileName (file : ParsedFile) : Option String :=
  match file.newFileName with
  | some newName =>
    if newName ≠ "" ∧ newName ≠ "/dev/null" then some newName
    else
      match file.oldFileName with
      | some oldName =>
        if oldName ≠ "" ∧ oldName ≠ "/dev/null" then some oldName else none
      | none => none
  | none =>
    match file.oldFileName with
    | some oldName =>
      if oldName ≠ "" ∧ oldName ≠ "/dev/null" then some oldName else none
    | none => none

/-- The mutable state of the capture walk inside
`transformFilesWithIntelligentHunks` (CLI entry, lines 645-649). -/
structure CapState where
  currentNewLine : Int
  currentOldLine : Int
  segmentLines : List String
  segmentOldStart : Int
  capturing : Bool
deriving DecidableEq, Repr

/-- One iteration of the capture walk (CLI entry, lines 651-677) on one raw
line; the returned `Bool` is true when the source executes `break`.  A line
whose first character is neither `-`, `+` nor a space falls through the
whole `if` chain: it is neither captured nor counted toward either
counter. -/
def capStep (seg : HunkAnalysis) (line : String) (st : CapState) : CapState × Bool :=
  let lineType := line.data.head?
  if lineType = some '-' then
    let shouldCapture := st.capturing
    let st1 := { st with currentOldLine := st.currentOldLine + 1 }
    (if shouldCapture then { st1 with segmentLines := st1.segmentLines ++ [line] } else st1, false)
  else if lineType = some '+' ∨ lineType = some ' ' then
    if seg.lineStart ≤ st.currentNewLine ∧ st.currentNewLine ≤ seg.lineEnd then
      let st1 :=
        if st.capturing then st
        else { st with capturing := true, segmentOldStart := st.currentOldLine }
      let st2 := { st1 with
        currentNewLine := st1.currentNewLine + 1,
        currentOldLine :=
          if lineType = some ' ' then st1.currentOldLine + 1 else st1.currentOldLine }
      ({ st2 with segmentLines := st2.segmentLines ++ [line] }, false)
    else if st.capturing ∧ seg.lineEnd < st.currentNewLine then
      (st, true)
    else
      ({ st with
        currentNewLine := st.currentNewLine + 1,
        currentOldLine :=
          if lineType = some ' ' then st.currentOldLine + 1 else st.currentOldLine }, false)
  else
    (st, false)

/-- The capture walk over a hunk's lines, stopping early on `break`. -/
def captureLoop (seg : HunkAnalysis) : List String → CapState → CapState
  | [], st => st
  | line :: rest, st =>
    match capStep seg line st with
    | (st1, true) => st1
    | (st1, false) => captureLoop seg rest st1

/-- The recount of `oldLines`/`newLines` over the captured lines (CLI
entry, lines 679-692): a `+` line counts toward new only, a `-` line toward
old only, anything else toward both. -/
def syntheticCounts (lines : List String) : Nat × Nat :=
  lines.foldl
    (fun acc line =>
      match line.data.head? with
      | some '+' => (acc.1, acc.2 + 1)
      | some '-' => (acc.1 + 1, acc.2)
      | _ => (acc.1 + 1, acc.2 + 1))
    (0, 0)

/-- Capture of one segment from one overlapping hunk (CLI entry, lines
645-704): walk the hunk's lines, and if anything was captured emit the
synthetic hunk with recomputed starts and counts. -/
def captureSegment (seg : HunkAnalysis) (originalHunk : Hunk) : Option Hunk :=
  let final := captureLoop seg originalHunk.lines
    ⟨originalHunk.newStart, originalHunk.oldStart, [], -1, false⟩
  if final.segmentLines = [] then none
  else
    let counts := syntheticCounts final.segmentLines
    some { originalHunk with
      oldStart := final.segmentOldStart
      newStart := seg.lineStart
      oldLines := (counts.1 : Int)
      newLines := (counts.2 : Int)
      lines := final.segmentLines }

/-- The first original hunk whose new-file range overlaps the segment (CLI
entry, lines 640-644): `segment.lineStart <= hunkEnd && segment.lineEnd >=
hunkStart` with `hunkEnd = newStart + newLines - 1`. -/
def findOverlappingHunk (hunks : List Hunk) (seg : HunkAnalysis) : Option Hunk :=
  hunks.find? fun oh =>
    decide (seg.lineStart ≤ oh.newStart + oh.newLines - 1) &&
      decide (oh.newStart ≤ seg.lineEnd)

/-- The synthetic hunk one segment contributes: only the first overlapping
hunk is consulted (the inner loop `break`s after it), and it contributes a
hunk only when its capture is non-empty. -/
def segmentSynthetic (hunks : List Hunk) (seg : HunkAnalysis) : Option Hunk :=
  (findOverlappingHunk hunks seg).bind fun oh => captureSegment seg oh

/-- Stable insertion of a segment into a list sorted ascending by
`lineStart`: the inserted element goes before the first strictly larger key
and after equal keys, which together with `sortSegments` reproduces the
stable ascending JS `sort((a, b) => a.lineStart - b.lineStart)`. -/
def insertSegment (x : HunkAnalysis) : List HunkAnalysis → List HunkAnalysis
  | [] => [x]
  | y :: ys => if x.lineStart ≤ y.lineStart then x :: y :: ys else y :: insertSegment x ys

/-- Stable ascending sort by `lineStart` (insertion sort). -/
def sortSegments : List HunkAnalysis → List HunkAnalysis
  | [] => []
  | x :: xs => insertSegment x (sortSegments xs)

/-- The segments of the analysis belonging to a file, sorted ascending (and
stably, as JS `sort`) by `lineStart` (CLI entry, lines 628-630). -/
def fileSegments (analysis : AnalysisResult) (fileName : String) : List HunkAnalysis :=
  sortSegments (analysis.hunks.filter fun h => h.file = fileName)

/-- The per-file body of `transformFilesWithIntelligentHunks` (CLI entry,
lines 624-712): `none` when the file has no usable name (the `continue`),
the file unchanged when it has no segments, otherwise the synthetic hunks
when any were produced, with the original hunks as fallback. -/
def transformFile (analysis : AnalysisResult) (file : ParsedFile) : Option ParsedFile :=
  match getFileName file with
  | none => none
  | some fileName =>
    let segs := fileSegments analysis fileName
    if segs = [] then some file
    else
      let syntheticHunks := segs.filterMap (segmentSynthetic file.hunks)
      some { file with hunks := if syntheticHunks ≠ [] then syntheticHunks else file.hunks }

/-- `transformFilesWithIntelligentHunks` (CLI entry, lines 618-715). -/
def transformFilesWithIntelligentHunks (parsedFiles : List ParsedFile)
    (analysis : AnalysisResult) : List ParsedFile :=
  parsedFiles.filterMap (transformFile analysis)

/-- `getTotalHunks` (CLI entry, lines 593-595). -/
def getTotalHunks (files : List ParsedFile) : Nat :=
  files.foldl (fun sum file => sum + file.hunks.length) 0

/-- The scanning loop of `linearToFileHunk` (CLI entry, lines 598-605):
returns as soon as the remaining index falls inside the current file's hunk
count. -/
def linearToFileHunkAux : List ParsedFile → Int → Int → Option (Int × Int)
  | [], _, _ => none
  | file :: rest, remaining, fileIndex =>
    if remaining < (file.hunks.length : Int) then some (fileIndex, remaining)
    else linearToFileHunkAux rest (remaining - (file.hunks.length : Int)) (fileIndex + 1)

/-- `linearToFileHunk` (CLI entry, lines 597-608): the scan, with the
fallback `{ fileIndex: files.length - 1, hunkIndex: lastFile ?
lastFile.hunks.length - 1 : 0 }` when the scan falls through. -/
def linearToFileHunk (files : List ParsedFile) (linearIndex : Int) : Int × Int :=
  match linearToFileHunkAux files linearIndex 0 with
  | some result => result
  | none =>
    match files.getLast? with
    | some lastFile => ((files.length : Int) - 1, (lastFile.hunks.length : Int) - 1)
    | none => ((files.length : Int) - 1, 0)

/-- `fileHunkToLinear` (CLI entry, lines 610-616): the sum of the hunk
counts of the files before `fileIndex` plus `hunkIndex` (indices past the
end or negative contribute nothing, as `files[i]?.hunks.length || 0`
does). -/
def fileHunkToLinear (files : List ParsedFile) (fileIndex hunkIndex : Int) : Int :=
  ((files.take fileIndex.toNat).foldl (fun linear file => linear + (file.hunks.length : Int)) 0) +
    hunkIndex

/-- Spec-side predicate for claim C10, following the claim's words: a name
is absent (missing, or empty under JS truthiness) or the `/dev/null`
sentinel. -/
def absentOrDevNull : Option String → Bool
  | none => true
  | some n => n = "" || n = "/dev/null"

/-! ### Lemmas about the pairing scan -/

theorem runLength_le (t : LineType) : ∀ ls : List ProcessedLine, runLength t ls ≤ ls.length
  | [] => by simp [runLength]
  | l :: ls => by
    by_cases h : l.type = t
    · simp only [runLength, if_pos h, List.length_cons]
      exact Nat.succ_le_succ (runLength_le t ls)
    · simp [runLength, h]

theorem runLength_get (t : LineType) :
    ∀ (ls : List ProcessedLine) (k : Nat), k < runLength t ls →
      (ls.get? k).map ProcessedLine.type = some t
  | [], k, hk => by simp [runLength] at hk
  | l :: ls, k, hk => by
    by_cases h : l.type = t
    · cases k with
      | zero => simp [h]
      | succ k =>
        simp only [runLength, if_pos h, Nat.succ_lt_succ_iff] at hk
        simpa using runLength_get t ls k hk
    · simp [runLength, h] at hk

theorem linePairsFromFuel_cons_remove (fuel : Nat) (l : ProcessedLine)
    (ls : List ProcessedLine) (i : Nat) {r a : Nat} (h : l.type = .remove)
    (hr : r = runLength .remove (l :: ls))
    (ha : a = runLength .add ((l :: ls).drop r)) :
    linePairsFromFuel (fuel + 1) (l :: ls) i =
      ((List.range (min r a)).map fun k => (i + k, i + r + k)) ++
        linePairsFromFuel fuel ((l :: ls).drop (r + a)) (i + r + a) := by
  subst hr ha
  simp [linePairsFromFuel, h]

theorem linePairsFromFuel_cons_other (fuel : Nat) (l : ProcessedLine)
    (ls : List ProcessedLine) (i : Nat) (h : ¬l.type = .remove) :
    linePairsFromFuel (fuel + 1) (l :: ls) i = linePairsFromFuel fuel ls (i + 1) := by
  simp [linePairsFromFuel, h]

theorem lpf_bounds :
    ∀ (fuel : Nat) (ls : List ProcessedLine) (i : Nat), ∀ p ∈ linePairsFromFuel fuel ls i,
      i ≤ p.1 ∧ p.1 < p.2 ∧ p.2 < i + ls.length := by
  intro fuel
  induction fuel with
  | zero => intro ls i p hp; simp [linePairsFromFuel] at hp
  | succ fuel ih =>
    intro ls i p hp
    cases ls with
    | nil => simp [linePairsFromFuel] at hp
    | cons l ls =>
      by_cases h : l.type = .remove
      · rw [linePairsFromFuel_cons_remove fuel l ls i h rfl rfl] at hp
        have hr1 : 1 ≤ runLength .remove (l :: ls) := by simp [runLength, h]
        have hrle : runLength .remove (l :: ls) ≤ (l :: ls).length := runLength_le _ _
        have hale : runLength .add ((l :: ls).drop (runLength .remove (l :: ls))) ≤
            (l :: ls).length - runLength .remove (l :: ls) := by
          have h1 := runLength_le .add ((l :: ls).drop (runLength .remove (l :: ls)))
          rwa [List.length_drop] at h1
        rcases List.mem_append.mp hp with hmem | hmem
        · rcases List.mem_map.mp hmem with ⟨k, hk, rfl⟩
          rw [List.mem_range] at hk
          have hk1 : k < runLength .remove (l :: ls) := lt_of_lt_of_le hk (min_le_left _ _)
          have hk2 : k < runLength .add ((l :: ls).drop (runLength .remove (l :: ls))) :=
            lt_of_lt_of_le hk (min_le_right _ _)
          simp only [List.length_cons] at *
          omega
        · have hb := ih _ _ p hmem
          simp only [List.length_drop, List.length_cons] at hb ⊢
          omega
      · rw [linePairsFromFuel_cons_other fuel l ls i h] at hp
        have hb := ih _ _ p hp
        simp only [List.length_cons]
        omega

theorem lpf_pairwise :
    ∀ (fuel : Nat) (ls : List ProcessedLine) (i : Nat),
      List.Pairwise (fun p q : Nat × Nat => p.1 < q.1 ∧ p.2 < q.2)
        (linePairsFromFuel fuel ls i) := by
  intro fuel
  induction fuel with
  | zero => intro ls i; simp [linePairsFromFuel]
  | succ fuel ih =>
    intro ls i
    cases ls with
    | nil => simp [linePairsFromFuel]
    | cons l ls =>
      by_cases h : l.type = .remove
      · rw [linePairsFromFuel_cons_remove fuel l ls i h rfl rfl]
        rw [List.pairwise_append]
        refine ⟨?_, ih _ _, ?_⟩
        · rw [List.pairwise_map]
          exact (List.pairwise_lt_range _).imp fun hk => ⟨by omega, by omega⟩
        · intro p hp q hq
          rcases List.mem_map.mp hp with ⟨k, hk, rfl⟩
          rw [List.mem_range] at hk
          have hk1 : k < runLength .remove (l :: ls) := lt_of_lt_of_le hk (min_le_left _ _)
          have hk2 : k < runLength .add ((l :: ls).drop (runLength .remove (l :: ls))) :=
            lt_of_lt_of_le hk (min_le_right _ _)
          have hb := lpf_bounds fuel _ _ q hq
          exact ⟨by omega, by omega⟩
      · rw [linePairsFromFuel_cons_other fuel l ls i h]
        exact ih _ _

theorem lpf_types :
    ∀ (fuel : Nat) (ls : List ProcessedLine) (i : Nat), ∀ p ∈ linePairsFromFuel fuel ls i,
      (ls.get? (p.1 - i)).map ProcessedLine.type = some .remove ∧
      (ls.get? (p.2 - i)).map ProcessedLine.type = some .add := by
  intro fuel
  induction fuel with
  | zero => intro ls i p hp; simp [linePairsFromFuel] at hp
  | succ fuel ih =>
    intro ls i p hp
    cases ls with
    | nil => simp [linePairsFromFuel] at hp
    | cons l ls =>
      by_cases h : l.type = .remove
      · rw [linePairsFromFuel_cons_remove fuel l ls i h rfl rfl] at hp
        have hr1 : 1 ≤ runLength .remove (l :: ls) := by simp [runLength, h]
        rcases List.mem_append.mp hp with hmem | hmem
        · rcases List.mem_map.mp hmem with ⟨k, hk, rfl⟩
          rw [List.mem_range] at hk
          have hk1 : k < runLength .remove (l :: ls) := lt_of_lt_of_le hk (min_le_left _ _)
          have hk2 : k < runLength .add ((l :: ls).drop (runLength .remove (l :: ls))) :=
            lt_of_lt_of_le hk (min_le_right _ _)
          constructor
          · have e : i + k - i = k := by omega
            rw [e]
            exact runLength_get .remove (l :: ls) k hk1
          · have e : i + runLength .remove (l :: ls) + k - i =
                runLength .remove (l :: ls) + k := by omega
            rw [e, ← List.get?_drop]
            exact runLength_get .add _ k hk2
        · obtain ⟨h1, h2⟩ := ih _ _ p hmem
          have hb := lpf_bounds fuel _ _ p hmem
          rw [List.get?_drop] at h1 h2
          constructor
          · have e : runLength .remove (l :: ls) +
                runLength .add ((l :: ls).drop (runLength .remove (l :: ls))) +
                (p.1 - (i + runLength .remove (l :: ls) +
                  runLength .add ((l :: ls).drop (runLength .remove (l :: ls))))) =
                p.1 - i := by omega
            rwa [e] at h1
          · have e : runLength .remove (l :: ls) +
                runLength .add ((l :: ls).drop (runLength .remove (l :: ls))) +
                (p.2 - (i + runLength .remove (l :: ls) +
                  runLength .add ((l :: ls).drop (runLength .remove (l :: ls))))) =
                p.2 - i := by omega
            rwa [e] at h2
      · rw [linePairsFromFuel_cons_other fuel l ls i h] at hp
        obtain ⟨h1, h2⟩ := ih _ _ p hp
        have hb := lpf_bounds fuel _ _ p hp
        constructor
        · have e : p.1 - i = (p.1 - (i + 1)) + 1 := by omega
          rw [e, List.get?_cons_succ]
          exact h1
        · have e : p.2 - i = (p.2 - (i + 1)) + 1 := by omega
          rw [e, List.get?_cons_succ]
          exact h2

theorem find_pair_none_of_nochange (pls : List ProcessedLine) (i : Nat)
    (pl : ProcessedLine) (hget : pls.get? i = some pl) (ht : pl.type = .nochange) :
    (linePairsOf pls).find? (fun p => p.1 == i || p.2 == i) = none := by
  rw [List.find?_eq_none]
  intro p hp
  unfold linePairsOf linePairsFrom at hp
  split at hp
  · have h1 := lpf_types pls.length pls 0 p hp
    simp only [Nat.sub_zero] at h1
    simp only [Bool.or_eq_true, beq_iff_eq, not_or]
    constructor
    · intro hq
      rw [hq, hget] at h1
      simp [ht] at h1
    · intro hq
      rw [hq, hget] at h1
      simp [ht] at h1
  · simp at hp

/-! ### Lemmas about the row-building loop -/

theorem pairedRemoveContent_eq_wordDiff {removedText addedText x y : String}
    (h : pairedRemoveContent removedText addedText = Content.wordDiffRemoved x y ∨
      pairedRemoveContent removedText addedText = Content.wordDiffAdded x y) :
    (1 / 2 : Rat) ≤ calculateSimilarity x y := by
  by_cases hsim : shouldSkipWordDiff removedText addedText
  · rw [pairedRemoveContent, if_pos hsim] at h
    rcases h with h | h <;> simp at h
  · rw [pairedRemoveContent, if_neg hsim] at h
    rcases h with h | h
    · obtain ⟨rfl, rfl⟩ := Content.wordDiffRemoved.inj h
      exact le_of_not_lt hsim
    · simp at h

theorem pairedAddContent_eq_wordDiff {removedText addedText x y : String}
    (h : pairedAddContent removedText addedText = Content.wordDiffRemoved x y ∨
      pairedAddContent removedText addedText = Content.wordDiffAdded x y) :
    (1 / 2 : Rat) ≤ calculateSimilarity x y := by
  by_cases hsim : shouldSkipWordDiff removedText addedText
  · rw [pairedAddContent, if_pos hsim] at h
    rcases h with h | h <;> simp at h
  · rw [pairedAddContent, if_neg hsim] at h
    rcases h with h | h
    · simp at h
    · obtain ⟨rfl, rfl⟩ := Content.wordDiffAdded.inj h
      exact le_of_not_lt hsim

theorem lineStep_some_wordDiff (pls : List ProcessedLine) (pairs : List (Nat × Nat))
    (pl : ProcessedLine) (i : Nat) (oldN newN : Int) (sid : Option Nat)
    (row : Row) (o n : Int)
    (hstep : lineStep pls pairs pl i oldN newN sid = (some row, o, n)) :
    ∀ x y, (row.content = Content.wordDiffRemoved x y ∨
        row.content = Content.wordDiffAdded x y) →
      (1 / 2 : Rat) ≤ calculateSimilarity x y ∧ row.pairedWith.isSome := by
  intro x y hc
  unfold lineStep at hstep
  split at hstep
  case h_2 =>
    simp only [Prod.mk.injEq, Option.some.injEq] at hstep
    obtain ⟨hrow, -⟩ := hstep
    subst hrow
    rcases hc with hc | hc <;> simp at hc
  case h_1 p =>
    split at hstep
    · split at hstep
      · simp at hstep
      · split at hstep
        case h_1 => simp at hstep
        case h_2 addedLine _ =>
          split at hstep <;>
          · simp only [Prod.mk.injEq, Option.some.injEq] at hstep
            obtain ⟨hrow, -⟩ := hstep
            subst hrow
            exact ⟨pairedRemoveContent_eq_wordDiff hc, by simp⟩
    · split at hstep
      · split at hstep
        case h_1 => simp at hstep
        case h_2 removedLine _ =>
          split at hstep <;>
          · simp only [Prod.mk.injEq, Option.some.injEq] at hstep
            obtain ⟨hrow, -⟩ := hstep
            subst hrow
            exact ⟨pairedAddContent_eq_wordDiff hc, by simp⟩
      · simp only [Prod.mk.injEq, Option.some.injEq] at hstep
        obtain ⟨hrow, -⟩ := hstep
        subst hrow
        rcases hc with hc | hc <;> simp at hc

theorem formatLoop_mem_wordDiff (pls : List ProcessedLine) (pairs : List (Nat × Nat)) :
    ∀ (rest : List ProcessedLine) (i : Nat) (oldN newN : Int) (c : Nat) (act : Option Nat)
      (r : Row), r ∈ formatLoop pls pairs rest i oldN newN c act →
      ∀ x y, (r.content = Content.wordDiffRemoved x y ∨
          r.content = Content.wordDiffAdded x y) →
        (1 / 2 : Rat) ≤ calculateSimilarity x y ∧ r.pairedWith.isSome := by
  intro rest
  induction rest with
  | nil =>
    intro i oldN newN c act r hr
    simp [formatLoop] at hr
  | cons pl rest ih =>
    intro i oldN newN c act r hr
    rcases hstep : lineStep pls pairs pl i oldN newN (applySnippet pl.type c act).1 with
      ⟨row?, o, n⟩
    rw [formatLoop] at hr
    simp only [hstep] at hr
    cases row? with
    | none => exact ih _ _ _ _ _ r hr
    | some row =>
      rcases List.mem_cons.mp hr with rfl | hr1
      · exact lineStep_some_wordDiff pls pairs pl i oldN newN _ r o n hstep
      · exact ih _ _ _ _ _ r hr1

/-! ### Lemmas about the linear hunk index -/

theorem getTotalHunks_aux (files : List ParsedFile) :
    ∀ acc : Nat, files.foldl (fun sum file => sum + file.hunks.length) acc =
      acc + getTotalHunks files := by
  induction files with
  | nil => intro acc; simp [getTotalHunks]
  | cons f rest ih =>
    intro acc
    simp only [getTotalHunks, List.foldl_cons]
    rw [ih, ih (0 + f.hunks.length)]
    omega

theorem getTotalHunks_cons (f : ParsedFile) (rest : List ParsedFile) :
    getTotalHunks (f :: rest) = f.hunks.length + getTotalHunks rest := by
  rw [show getTotalHunks (f :: rest) =
      rest.foldl (fun sum file => sum + file.hunks.length) (0 + f.hunks.length) from rfl,
    getTotalHunks_aux rest]
  omega

theorem linearToFileHunkAux_eq_none :
    ∀ (files : List ParsedFile) (n : Int) (fi : Int),
      (getTotalHunks files : Int) ≤ n → linearToFileHunkAux files n fi = none := by
  intro files
  induction files with
  | nil => intro n fi _; rfl
  | cons f rest ih =>
    intro n fi hn
    rw [getTotalHunks_cons] at hn
    push_cast at hn
    have h1 : ¬n < (f.hunks.length : Int) := by
      have := Int.natCast_nonneg (getTotalHunks rest)
      omega
    simp only [linearToFileHunkAux, if_neg h1]
    apply ih
    have := Int.natCast_nonneg (getTotalHunks rest)
    omega

theorem linearToFileHunkAux_shift :
    ∀ (files : List ParsedFile) (n : Int) (fi : Int),
      linearToFileHunkAux files n fi =
        (linearToFileHunkAux files n 0).map fun q => (q.1 + fi, q.2) := by
  intro files
  induction files with
  | nil => intro n fi; rfl
  | cons f rest ih =>
    intro n fi
    by_cases h1 : n < (f.hunks.length : Int)
    · simp [linearToFileHunkAux, if_pos h1]
    · simp only [linearToFileHunkAux, if_neg h1, zero_add]
      rw [ih _ (fi + 1), ih _ 1, Option.map_map]
      cases linearToFileHunkAux rest (n - (f.hunks.length : Int)) 0 with
      | none => rfl
      | some q =>
        simp only [Option.map, Option.bind, Function.comp_apply, Option.some.injEq,
          Prod.mk.injEq]
        exact ⟨by omega, trivial⟩

theorem foldl_hunks_shift (l : List ParsedFile) :
    ∀ acc : Int, l.foldl (fun linear file => linear + (file.hunks.length : Int)) acc =
      acc + l.foldl (fun linear file => linear + (file.hunks.length : Int)) 0 := by
  induction l with
  | nil => intro acc; simp
  | cons f rest ih =>
    intro acc
    simp only [List.foldl_cons]
    rw [ih, ih ((0 : Int) + f.hunks.length)]
    omega

theorem roundTrip_aux :
    ∀ (files : List ParsedFile) (n : Int), 0 ≤ n → n < (getTotalHunks files : Int) →
      ∃ (j : Nat) (hh : Int), linearToFileHunkAux files n 0 = some ((j : Int), hh) ∧
        fileHunkToLinear files (j : Int) hh = n := by
  intro files
  induction files with
  | nil =>
    intro n h0 h1
    simp [getTotalHunks] at h1
    omega
  | cons f rest ih =>
    intro n h0 h1
    by_cases hlt : n < (f.hunks.length : Int)
    · refine ⟨0, n, ?_, ?_⟩
      · simp [linearToFileHunkAux, if_pos hlt]
      · simp [fileHunkToLinear]
    · rw [getTotalHunks_cons] at h1
      push_cast at h1
      obtain ⟨j, hh, e1, e2⟩ := ih (n - (f.hunks.length : Int)) (by omega) (by omega)
      refine ⟨j + 1, hh, ?_, ?_⟩
      · simp only [linearToFileHunkAux, if_neg hlt]
        rw [linearToFileHunkAux_shift, e1]
        simp only [Option.map, Option.bind, Option.some.injEq, Prod.mk.injEq]
        exact ⟨by push_cast; omega, trivial⟩
      · unfold fileHunkToLinear at e2 ⊢
        have hj2 : ((j : Int)).toNat = j := by omega
        rw [hj2] at e2
        have hcast : (((j + 1 : Nat) : Int)).toNat = j + 1 := by omega
        rw [hcast, List.take_succ_cons, List.foldl_cons, foldl_hunks_shift]
        rw [foldl_hunks_shift] at e2
        omega

/-! ### Lemmas about the file transform -/

theorem getFileName_none_iff (file : ParsedFile) :
    getFileName file = none ↔
      (absentOrDevNull file.oldFileName && absentOrDevNull file.newFileName) = true := by
  rcases file with ⟨oldN, newN, hunks⟩
  cases newN with
  | none =>
    cases oldN with
    | none => simp [getFileName, absentOrDevNull]
    | some o =>
      simp only [getFileName, absentOrDevNull]
      split_ifs with h
      · simp [h.1, h.2]
      · rw [not_and_or, not_not, not_not] at h
        rcases h with h | h <;> simp [h]
  | some n =>
    cases oldN with
    | none =>
      simp only [getFileName, absentOrDevNull]
      split_ifs with h
      · simp [h.1, h.2]
      · rw [not_and_or, not_not, not_not] at h
        rcases h with h | h <;> simp [h]
    | some o =>
      simp only [getFileName, absentOrDevNull]
      split_ifs with h1 h2
      · simp [h1.1, h1.2]
      · simp [h2.1, h2.2]
      · rw [not_and_or, not_not, not_not] at h1 h2
        constructor
        · intro _
          simp only [Bool.and_eq_true, Bool.or_eq_true, decide_eq_true_eq]
          constructor
          · rcases h2 with h | h <;> simp [h]
          · rcases h1 with h | h <;> simp [h]
        · intro _
          rfl

theorem transformFile_isSome (analysis : AnalysisResult) (file : ParsedFile)
    (h : getFileName file ≠ none) : (transformFile analysis file).isSome = true := by
  unfold transformFile
  cases hg : getFileName file with
  | none => exact absurd hg h
  | some name =>
    by_cases hsegs : fileSegments analysis name = [] <;> simp [hsegs]

theorem transformFile_eq_none (analysis : AnalysisResult) (file : ParsedFile)
    (h : getFileName file = none) : transformFile analysis file = none := by
  unfold transformFile
  rw [h]

/-! ### Claim theorems -/

/-- C1: the claim (and spec §4.4) says the `newLineNumber` counter is seeded
from the hunk's declared `newStart`.  The code seeds BOTH counters from the
single `startingLineNumber` argument (diff.tsx:513-514), and the call site
passes `patch.oldStart` (diff.tsx:718).  Evaluating the code at a hunk with
`oldStart = 1`, `newStart = 5` and one context line: the produced row
carries `newLineNumber = 1` (derived from `oldStart`), not `5`. -/
theorem c1_code_eval :
    structuredDiffRows ⟨1, 1, 5, 1, [" a"]⟩ =
      [⟨Content.plain "a", LineType.nochange, 1, 1, none, none⟩] ∧
    (Hunk.mk 1 1 5 1 [" a"]).newStart = 5 ∧
    decide ((1 : Int) = 5) = false :=
  ⟨by decide, by decide, by decide⟩

/-- C2 counterexample: for the claimed scenario (hunk `oldStart=10,
newStart=20, lines=[" a","-b","+c"," d"]`, segment `[20,21]`), the captured
line sequence is `[" a","-b","+c"]` — the remove line `"-b"` IS captured,
because `capturing` became true at the context line `" a"` (new line 20 is
inside the segment), contradicting the claimed `[" a","+c"]`. -/
theorem c2_counterexample :
    transformFilesWithIntelligentHunks
        [⟨some "f.ts", some "f.ts", [⟨10, 3, 20, 3, [" a", "-b", "+c", " d"]⟩]⟩]
        ⟨[⟨"f.ts", 20, 21, "", "", ""⟩], 0, none⟩ =
      [⟨some "f.ts", some "f.ts", [⟨10, 2, 20, 2, [" a", "-b", "+c"]⟩]⟩] ∧
    decide (([" a", "-b", "+c"] : List String) = [" a", "+c"]) = false :=
  ⟨by decide, by decide⟩

/-- C2 amended: the scenario yields one synthetic hunk with `newStart = 20`,
`oldStart = 10`, recomputed counts `oldLines = 2`, `newLines = 2`, and
captured lines exactly `[" a","-b","+c"]` (the remove line is captured
since `capturing` was already true when it was reached; the trailing
context line `" d"` is excluded by the early `break`). -/
theorem c2_amended_eval :
    transformFilesWithIntelligentHunks
        [⟨some "f.ts", some "f.ts", [⟨10, 3, 20, 3, [" a", "-b", "+c", " d"]⟩]⟩]
        ⟨[⟨"f.ts", 20, 21, "", "", ""⟩], 0, none⟩ =
      [⟨some "f.ts", some "f.ts", [⟨10, 2, 20, 2, [" a", "-b", "+c"]⟩]⟩] ∧
    (Hunk.mk 10 2 20 2 [" a", "-b", "+c"]).newStart = 20 :=
  ⟨by decide, rfl⟩

/-- C3 counterexample: for a non-empty file list, `linearToFileHunk` at
`-1` returns `(0, -1)` — a hunk index of `-1`, not the first valid hunk
coordinate `(0, 0)`; there is no lower clamping. -/
theorem c3_counterexample :
    linearToFileHunk [⟨some "a.ts", some "a.ts", [⟨1, 1, 1, 1, [" x"]⟩]⟩] (-1) = (0, -1) ∧
    decide (((0, -1) : Int × Int) = (0, 0)) = false :=
  ⟨by decide, by decide⟩

/-- C3 amended: on a non-empty file list, `linearToFileHunk (-1)` returns
`(0, -1)` (file index clamped to the first file but hunk index left at
`-1`), and for any `n ≥ totalHunks` it returns
`(files.length - 1, lastFile.hunks.length - 1)` — which is the last valid
hunk coordinate only when the last file has at least one hunk. -/
theorem c3_amended (f : ParsedFile) (rest : List ParsedFile) :
    linearToFileHunk (f :: rest) (-1) = (0, -1) ∧
    ∀ n : Int, (getTotalHunks (f :: rest) : Int) ≤ n →
      linearToFileHunk (f :: rest) n =
        (((f :: rest).length : Int) - 1,
          (((f :: rest).getLast (List.cons_ne_nil f rest)).hunks.length : Int) - 1) := by
  constructor
  · have hpos : (-1 : Int) < (f.hunks.length : Int) := by
      have := Int.natCast_nonneg f.hunks.length
      omega
    unfold linearToFileHunk linearToFileHunkAux
    rw [if_pos hpos]
  · intro n hn
    unfold linearToFileHunk
    rw [linearToFileHunkAux_eq_none (f :: rest) n 0 hn]
    rw [List.getLast?_eq_getLast (f :: rest) (List.cons_ne_nil f rest)]

/-- C3 witness: for one file with one hunk, `-1` maps to `(0, -1)` and
`totalHunks = 1` maps to `(0, 0)`. -/
theorem c3_witness :
    linearToFileHunk [⟨some "a.ts", some "a.ts", [⟨1, 1, 1, 1, [" x"]⟩]⟩] (-1) = (0, -1) ∧
    linearToFileHunk [⟨some "a.ts", some "a.ts", [⟨1, 1, 1, 1, [" x"]⟩]⟩] 1 = (0, 0) := by
  refine ⟨(c3_amended _ []).1, ?_⟩
  have h := (c3_amended (⟨some "a.ts", some "a.ts", [⟨1, 1, 1, 1, [" x"]⟩]⟩ : ParsedFile) []).2
    1 (by decide)
  simpa using h

/-- C4: for every file list and every in-range linear index `n`,
`fileHunkToLinear` is a left inverse of `linearToFileHunk`; both functions
are total, and on the empty (totalHunks = 0) input they return values
rather than throwing. -/
theorem c4_round_trip (files : List ParsedFile) (n : Int)
    (h0 : 0 ≤ n) (h1 : n < (getTotalHunks files : Int)) :
    fileHunkToLinear files (linearToFileHunk files n).1 (linearToFileHunk files n).2 = n ∧
    linearToFileHunk [] 0 = (-1, 0) ∧ fileHunkToLinear [] 0 0 = 0 := by
  obtain ⟨j, hh, e1, e2⟩ := roundTrip_aux files n h0 h1
  refine ⟨?_, by decide, by decide⟩
  unfold linearToFileHunk
  rw [e1]
  exact e2

/-- C4 witness: two files with hunk counts 2 and 1, `n = 2` round-trips. -/
theorem c4_witness :
    fileHunkToLinear
        [⟨some "a", none, [⟨1, 1, 1, 1, [" x"]⟩, ⟨2, 1, 2, 1, [" y"]⟩]⟩,
         ⟨some "b", none, [⟨3, 1, 3, 1, [" z"]⟩]⟩]
        (linearToFileHunk
          [⟨some "a", none, [⟨1, 1, 1, 1, [" x"]⟩, ⟨2, 1, 2, 1, [" y"]⟩]⟩,
           ⟨some "b", none, [⟨3, 1, 3, 1, [" z"]⟩]⟩] 2).1
        (linearToFileHunk
          [⟨some "a", none, [⟨1, 1, 1, 1, [" x"]⟩, ⟨2, 1, 2, 1, [" y"]⟩]⟩,
           ⟨some "b", none, [⟨3, 1, 3, 1, [" z"]⟩]⟩] 2).2 = 2 :=
  (c4_round_trip _ 2 (by decide) (by decide)).1

/-- C5: the line pairer produces no pairs unless the hunk has both a remove
and an add line; every pair has a remove-typed first index and an add-typed
second index with `remove < add`; the pair list is strictly increasing in
both components, so no line index appears in more than one pair; and the
spec's example `["-foo","-bar","+foo2","+baz","+qux"]` yields exactly
`[(0,2),(1,3)]`, leaving index 4 unpaired. -/
theorem c5_line_pairing (lines : List String) :
    (¬(hasRemovals (lines.map processLine) = true ∧
        hasAdditions (lines.map processLine) = true) →
      linePairsOf (lines.map processLine) = []) ∧
    List.Pairwise (fun p q : Nat × Nat => p.1 < q.1 ∧ p.2 < q.2)
      (linePairsOf (lines.map processLine)) ∧
    (∀ p ∈ linePairsOf (lines.map processLine),
      p.1 < p.2 ∧
      ((lines.map processLine).get? p.1).map ProcessedLine.type = some .remove ∧
      ((lines.map processLine).get? p.2).map ProcessedLine.type = some .add) ∧
    linePairsOf (["-foo", "-bar", "+foo2", "+baz", "+qux"].map processLine) =
      [(0, 2), (1, 3)] := by
  refine ⟨?_, ?_, ?_, by decide⟩
  · intro hnot
    unfold linePairsOf
    rw [if_neg]
    simp only [shouldShowWordDiff, Bool.and_eq_true]
    exact hnot
  · unfold linePairsOf
    split
    · exact lpf_pairwise _ _ _
    · simp
  · intro p hp
    unfold linePairsOf linePairsFrom at hp
    split at hp
    · have hb := lpf_bounds _ _ _ p hp
      have ht := lpf_types _ _ _ p hp
      simp only [Nat.sub_zero] at ht
      exact ⟨by omega, ht.1, ht.2⟩
    · simp at hp

/-- C5 witness: a pure-addition hunk produces no pairs. -/
theorem c5_witness : linePairsOf (["+a"].map processLine) = [] :=
  (c5_line_pairing ["+a"]).1 (by decide)

/-- C6 counterexample: in unified mode the single line number column of a
remove row is NOT blank — it shows the row's (stringified) new-counter
value whenever that is not `"0"`.  A hunk `["-a"]` starting at 1 renders
its remove row with column `"1"`. -/
theorem c6_counterexample :
    unifiedRows ⟨1, 1, 1, 0, ["-a"]⟩ 1 =
      [⟨"1", ⟨"1", "1", Content.plain "a", LineType.remove, none, some 1⟩⟩] ∧
    decide (("1" : String) = spacesStr 1) = false :=
  ⟨by decide, by decide⟩

/-- C6 amended: every unified-mode row — add, context and remove alike —
shows the padded stringified `newLineNumber` of its underlying row when
that string is neither empty nor `"0"`, and is blank (spaces) exactly in
the remaining case; each displayed item is the stringification of a row
built by the row builder. -/
theorem c6_amended (patch : Hunk) (w : Nat) (u : UnifiedRow)
    (hu : u ∈ unifiedRows patch w) :
    (u.item.newLineNumber ≠ "" ∧ u.item.newLineNumber ≠ "0" →
      u.lineNumber = padStartStr u.item.newLineNumber w) ∧
    (u.item.newLineNumber = "" ∨ u.item.newLineNumber = "0" →
      u.lineNumber = spacesStr w) ∧
    ∃ r ∈ formatDiffRows patch.lines patch.oldStart, u.item = toDisplayRow r := by
  unfold unifiedRows at hu
  rcases List.mem_map.mp hu with ⟨item, hitem, rfl⟩
  unfold formatDiff at hitem
  rcases List.mem_map.mp hitem with ⟨r, hr, rfl⟩
  refine ⟨?_, ?_, ⟨r, hr, rfl⟩⟩
  · intro hcond
    simp only
    rw [if_pos hcond]
  · intro hcond
    replace hcond : (toDisplayRow r).newLineNumber = "" ∨ (toDisplayRow r).newLineNumber = "0" :=
      hcond
    simp only
    rw [if_neg (by rcases hcond with h | h <;> simp [h])]

/-- C6 witness: a context row at line 3 with width 2 shows `" 3"`. -/
theorem c6_witness :
    (⟨" 3", ⟨"3", "3", Content.plain "z", LineType.nochange, none, none⟩⟩ : UnifiedRow) ∈
      unifiedRows ⟨3, 1, 3, 1, [" z"]⟩ 2 ∧
    (⟨" 3", ⟨"3", "3", Content.plain "z", LineType.nochange, none, none⟩⟩ :
        UnifiedRow).lineNumber =
      padStartStr "3" 2 := by
  refine ⟨by decide, ?_⟩
  exact (c6_amended ⟨3, 1, 3, 1, [" z"]⟩ 2 _ (by decide)).1 (by decide)

/-- C7 counterexample: for the hunk `["-","+"]` the pairer pairs indices
`(0, 1)` and `similarity("", "") = 1 ≥ 0.5`, yet the output contains only
the add-side row: the paired remove line has empty text, so the source's
`!removedText` check drops it entirely — no remove-side word diff is
computed and the pair cannot merge into a two-sided row, contradicting the
claim as universally stated. -/
theorem c7_counterexample :
    formatDiffRows ["-", "+"] 1 =
      [⟨Content.wordDiffAdded "" "", LineType.add, 1, 1, some 0, some 1⟩] ∧
    linePairsOf (["-", "+"].map processLine) = [(0, 1)] ∧
    (1 / 2 : Rat) ≤ calculateSimilarity "" "" := by
  refine ⟨?_, by decide, ?_⟩
  · have hs : ¬shouldSkipWordDiff "" "" := by
      simp only [shouldSkipWordDiff, calculateSimilarity]
      norm_num
    have hp : linePairsOf [⟨"", LineType.remove, "-"⟩, ⟨"", LineType.add, "+"⟩] =
        [(0, 1)] := by decide
    simp [formatDiffRows, formatLoop, lineStep, applySnippet, typeIncrement,
      pairedRemoveContent, pairedAddContent, processLine,
      show ("-".drop 1) = "" from rfl, show ("+".drop 1) = "" from rfl, hp, hs]
  · simp only [calculateSimilarity]
    norm_num

/-- C7 amended: the paired content is a word diff exactly when the
similarity is at least 0.5 and a plain whole line below that threshold;
every word-diff row in the output has similarity at least 0.5 and carries
`pairedWith`; and a below-threshold pair with non-empty texts still
produces two rows that keep their `pairedWith` links (layout pairing) with
plain whole-line content, as the `["-cat","+xyz"]` evaluation shows.  (A
paired remove line whose text is empty is dropped entirely — see the
counterexample.) -/
theorem c7_amended :
    (∀ a b : String, pairedRemoveContent a b = Content.wordDiffRemoved a b ↔
      (1 / 2 : Rat) ≤ calculateSimilarity a b) ∧
    (∀ a b : String, pairedAddContent a b = Content.wordDiffAdded a b ↔
      (1 / 2 : Rat) ≤ calculateSimilarity a b) ∧
    (∀ a b : String, calculateSimilarity a b < (1 / 2 : Rat) →
      pairedRemoveContent a b = Content.plain a ∧ pairedAddContent a b = Content.plain b) ∧
    (∀ (lines : List String) (start : Int) (r : Row), r ∈ formatDiffRows lines start →
      ∀ x y, (r.content = Content.wordDiffRemoved x y ∨
          r.content = Content.wordDiffAdded x y) →
        (1 / 2 : Rat) ≤ calculateSimilarity x y ∧ r.pairedWith.isSome) ∧
    formatDiffRows ["-cat", "+xyz"] 1 =
      [⟨Content.plain "cat", LineType.remove, 1, 1, some 1, some 1⟩,
       ⟨Content.plain "xyz", LineType.add, 2, 1, some 0, some 1⟩] := by
  refine ⟨?_, ?_, ?_, ?_, ?_⟩
  · intro a b
    constructor
    · intro h
      exact pairedRemoveContent_eq_wordDiff (Or.inl h)
    · intro h
      unfold pairedRemoveContent
      rw [if_neg (show ¬shouldSkipWordDiff a b from not_lt.mpr h)]
  · intro a b
    constructor
    · intro h
      exact pairedAddContent_eq_wordDiff (Or.inr h)
    · intro h
      unfold pairedAddContent
      rw [if_neg (show ¬shouldSkipWordDiff a b from not_lt.mpr h)]
  · intro a b h
    constructor
    · unfold pairedRemoveContent
      rw [if_pos (show shouldSkipWordDiff a b from h)]
    · unfold pairedAddContent
      rw [if_pos (show shouldSkipWordDiff a b from h)]
  · intro lines start r hr x y hc
    unfold formatDiffRows at hr
    exact formatLoop_mem_wordDiff _ _ _ _ _ _ _ _ r hr x y hc
  · have hd : levenshteinDistance "xyz" "cat" = 3 := by decide
    have hs : shouldSkipWordDiff "cat" "xyz" := by
      simp only [shouldSkipWordDiff, calculateSimilarity]
      norm_num [show "xyz".length = 3 from rfl, show "cat".length = 3 from rfl, hd]
    have hp : linePairsOf [⟨"cat", LineType.remove, "-cat"⟩, ⟨"xyz", LineType.add, "+xyz"⟩] =
        [(0, 1)] := by decide
    simp [formatDiffRows, formatLoop, lineStep, applySnippet, typeIncrement,
      pairedRemoveContent, pairedAddContent, processLine,
      show ("-cat".drop 1) = "cat" from rfl, show ("+xyz".drop 1) = "xyz" from rfl, hp, hs]

/-- C7 witness: identical texts have similarity 1 and get a word diff. -/
theorem c7_witness :
    (1 / 2 : Rat) ≤ calculateSimilarity "cat" "cat" ∧
    pairedRemoveContent "cat" "cat" = Content.wordDiffRemoved "cat" "cat" := by
  have hd : levenshteinDistance "cat" "cat" = 0 := by decide
  have hsim : (1 / 2 : Rat) ≤ calculateSimilarity "cat" "cat" := by
    simp only [calculateSimilarity]
    norm_num [show "cat".length = 3 from rfl, hd]
  exact ⟨hsim, (c7_amended.1 "cat" "cat").mpr hsim⟩

/-- C8 counterexample: in the resegmentation traversal a line whose leading
marker is unrecognized (`"?x"`) is NOT counted toward either counter: after
walking it from counters `(1, 1)` both counters are still `1`, not `2` —
the claim's "counted toward both counters" fails for the resegmenter. -/
theorem c8_counterexample :
    captureLoop ⟨"f", 1, 1, "", "", ""⟩ ["?x"] ⟨1, 1, [], -1, false⟩ =
      ⟨1, 1, [], -1, false⟩ ∧
    decide ((captureLoop ⟨"f", 1, 1, "", "", ""⟩ ["?x"]
        ⟨1, 1, [], -1, false⟩).currentNewLine = 2) = false ∧
    decide ((captureLoop ⟨"f", 1, 1, "", "", ""⟩ ["?x"]
        ⟨1, 1, [], -1, false⟩).currentOldLine = 2) = false :=
  ⟨by decide, by decide, by decide⟩

/-- C8 amended: the two traversals treat unrecognized markers differently.
In row building an unrecognized marker is classified `nochange`, such a
line is never paired, and its step emits a context row advancing BOTH
counters; in the resegmentation walk a line whose first character is
neither `-`, `+` nor a space is skipped entirely — not captured and
advancing NEITHER counter.  Neither traversal can fail on such input. -/
theorem c8_amended :
    (∀ line : String, line.data.head? ≠ some '+' → line.data.head? ≠ some '-' →
      (processLine line).type = .nochange) ∧
    (∀ (pls : List ProcessedLine) (i : Nat) (pl : ProcessedLine),
      pls.get? i = some pl → pl.type = .nochange →
      (linePairsOf pls).find? (fun p => p.1 == i || p.2 == i) = none) ∧
    (∀ (pls : List ProcessedLine) (pairs : List (Nat × Nat)) (pl : ProcessedLine)
      (i : Nat) (oldN newN : Int) (sid : Option Nat),
      pl.type = .nochange →
      pairs.find? (fun p => p.1 == i || p.2 == i) = none →
      lineStep pls pairs pl i oldN newN sid =
        (some ⟨Content.plain pl.code, .nochange, oldN, newN, none, sid⟩,
          oldN + 1, newN + 1)) ∧
    (∀ (seg : HunkAnalysis) (line : String) (st : CapState),
      line.data.head? ≠ some '-' → line.data.head? ≠ some '+' →
      line.data.head? ≠ some ' ' →
      capStep seg line st = (st, false)) := by
  refine ⟨?_, ?_, ?_, ?_⟩
  · intro line h1 h2
    unfold processLine
    rw [if_neg h1, if_neg h2]
  · intro pls i pl hget ht
    exact find_pair_none_of_nochange pls i pl hget ht
  · intro pls pairs pl i oldN newN sid ht hfind
    unfold lineStep
    rw [hfind]
    simp [ht, typeIncrement]
  · intro seg line st h1 h2 h3
    unfold capStep
    rw [if_neg h1, if_neg (by simp [h2, h3])]

/-- C8 witness: `"?x"` is classified as context by the row builder and is a
no-op for the resegmentation walk. -/
theorem c8_witness :
    (processLine "?x").type = LineType.nochange ∧
    capStep ⟨"f", 1, 1, "", "", ""⟩ "?x" ⟨1, 1, [], -1, false⟩ =
      (⟨1, 1, [], -1, false⟩, false) :=
  ⟨c8_amended.1 "?x" (by decide) (by decide),
   c8_amended.2.2.2 ⟨"f", 1, 1, "", "", ""⟩ "?x" ⟨1, 1, [], -1, false⟩
     (by decide) (by decide) (by decide)⟩

/-- C9: for a file the transform keeps, if the resegmentation produced no
synthetic hunks (in particular when no segment of the file overlaps any of
its hunks) the output hunk list is the original one unchanged; and a file
that came in with a non-empty hunk list never leaves with an empty one. -/
theorem c9_fallback (analysis : AnalysisResult) (file : ParsedFile) (fileName : String)
    (f : ParsedFile) (hname : getFileName file = some fileName)
    (htr : transformFile analysis file = some f) :
    ((fileSegments analysis fileName).filterMap (segmentSynthetic file.hunks) = [] →
      f.hunks = file.hunks) ∧
    ((∀ seg ∈ fileSegments analysis fileName,
        findOverlappingHunk file.hunks seg = none) →
      f.hunks = file.hunks) ∧
    (file.hunks ≠ [] → f.hunks ≠ []) := by
  unfold transformFile at htr
  rw [hname] at htr
  dsimp only at htr
  by_cases hsegs : fileSegments analysis fileName = []
  · rw [if_pos hsegs] at htr
    obtain rfl := Option.some.inj htr
    exact ⟨fun _ => rfl, fun _ => rfl, fun h => h⟩
  · rw [if_neg hsegs] at htr
    obtain rfl := Option.some.inj htr
    refine ⟨?_, ?_, ?_⟩
    · intro hempty
      simp [hempty]
    · intro hnone
      have hempty : (fileSegments analysis fileName).filterMap
          (segmentSynthetic file.hunks) = [] := by
        rw [List.filterMap_eq_nil]
        intro seg hseg
        unfold segmentSynthetic
        rw [hnone seg hseg]
        rfl
      simp [hempty]
    · intro hne
      by_cases hsyn : (fileSegments analysis fileName).filterMap
          (segmentSynthetic file.hunks) = []
      · simpa [hsyn] using hne
      · simpa [hsyn] using hsyn

/-- C9 witness: a file with one hunk and an empty analysis passes through
unchanged with a non-empty hunk list. -/
theorem c9_witness :
    getFileName ⟨some "w9.ts", none, [⟨1, 1, 1, 1, [" x"]⟩]⟩ = some "w9.ts" ∧
    transformFile ⟨[], 0, none⟩ ⟨some "w9.ts", none, [⟨1, 1, 1, 1, [" x"]⟩]⟩ =
      some ⟨some "w9.ts", none, [⟨1, 1, 1, 1, [" x"]⟩]⟩ ∧
    (([⟨1, 1, 1, 1, [" x"]⟩] : List Hunk) ≠ [] →
      (⟨some "w9.ts", none, [⟨1, 1, 1, 1, [" x"]⟩]⟩ : ParsedFile).hunks ≠ []) :=
  ⟨by decide, by decide,
    (c9_fallback ⟨[], 0, none⟩ ⟨some "w9.ts", none, [⟨1, 1, 1, 1, [" x"]⟩]⟩ "w9.ts"
      ⟨some "w9.ts", none, [⟨1, 1, 1, 1, [" x"]⟩]⟩ (by decide) (by decide)).2.2⟩

/-- C10: the transform omits exactly the files whose two names are both
absent (missing or empty, JS falsiness) or the `/dev/null` sentinel — those
are precisely the files `getFileName` rejects — and processes the remaining
files in their original order, each yielding exactly one output file. -/
theorem c10_devnull_filter (files : List ParsedFile) (analysis : AnalysisResult) :
    (∀ file : ParsedFile, getFileName file = none ↔
      (absentOrDevNull file.oldFileName && absentOrDevNull file.newFileName) = true) ∧
    transformFilesWithIntelligentHunks files analysis =
      (files.filter fun file =>
        !(absentOrDevNull file.oldFileName && absentOrDevNull file.newFileName)).filterMap
        (transformFile analysis) ∧
    (∀ file : ParsedFile,
      (!(absentOrDevNull file.oldFileName && absentOrDevNull file.newFileName)) = true →
      (transformFile analysis file).isSome = true) := by
  refine ⟨getFileName_none_iff, ?_, ?_⟩
  · unfold transformFilesWithIntelligentHunks
    induction files with
    | nil => rfl
    | cons f rest ih =>
      by_cases hn : getFileName f = none
      · have hbad := (getFileName_none_iff f).mp hn
        rw [List.filterMap_cons, transformFile_eq_none analysis f hn,
          List.filter_cons, if_neg (by simp [hbad])]
        exact ih
      · have hgood : (!(absentOrDevNull f.oldFileName &&
            absentOrDevNull f.newFileName)) = true := by
          rcases h : (absentOrDevNull f.oldFileName && absentOrDevNull f.newFileName) with _ | _
          · rfl
          · exact absurd ((getFileName_none_iff f).mpr h) hn
        rw [List.filter_cons, if_pos hgood, List.filterMap_cons, List.filterMap_cons]
        cases htr : transformFile analysis f with
        | none =>
          have := transformFile_isSome analysis f hn
          rw [htr] at this
          simp at this
        | some f2 => rw [ih]
  · intro file hkeep
    apply transformFile_isSome
    intro hn
    have := (getFileName_none_iff file).mp hn
    rw [this] at hkeep
    simp at hkeep

/-- C10 witness: a `/dev/null`-only file is omitted while a named file is
kept, in order. -/
theorem c10_witness :
    transformFilesWithIntelligentHunks
        [⟨some "/dev/null", some "/dev/null", [⟨1, 1, 1, 1, [" x"]⟩]⟩,
         ⟨some "a.ts", some "a.ts", []⟩] ⟨[], 0, none⟩ =
      ([⟨some "/dev/null", some "/dev/null", [⟨1, 1, 1, 1, [" x"]⟩]⟩,
        ⟨some "a.ts", some "a.ts", []⟩].filter fun file =>
          !(absentOrDevNull file.oldFileName &&
            absentOrDevNull file.newFileName)).filterMap
        (transformFile ⟨[], 0, none⟩) :=
  (c10_devnull_filter
    [⟨some "/dev/null", some "/dev/null", [⟨1, 1, 1, 1, [" x"]⟩]⟩,
     ⟨some "a.ts", some "a.ts", []⟩] ⟨[], 0, none⟩).2.1
